import Mathlib

/-!
Verification of the JoiningDataProvider / DeferredDataProvider adapters
(`ojjoiningdataprovider.js`, `ojdeferreddataprovider.js`, Oracle JET v10).

The JavaScript is shallowly embedded: JS values become the inductive `Val`
(with `null` covering both JS `null` and `undefined`, which the source only
distinguishes through loose comparisons), records are field lists inside
`Val.obj`, the attribute-projection values flowing through
`_seperateBaseJoinAttributes` become `Attr`, asynchronous fetches become pure
function calls whose issuance is logged as `FetchCall`s, and a thrown
`TypeError` becomes an `Except.error`.
-/

namespace OJ

mutual
/-- JavaScript runtime values handled by the providers.  `null` models both JS
`null` and `undefined`: the source only tests these with loose `!= null` /
`!= undefined` comparisons, which do not distinguish them. -/
inductive Val where
  | null
  | int (n : Int)
  | str (s : String)
  | bool (b : Bool)
  | arr (elems : ValList)
  | obj (fields : FieldList)
deriving DecidableEq

/-- A JS array of values (element list of `Val.arr`). -/
inductive ValList where
  | nil
  | cons (head : Val) (tail : ValList)
deriving DecidableEq

/-- The property list of a JS object (`Val.obj`): ordered, unique names. -/
inductive FieldList where
  | nil
  | cons (name : String) (value : Val) (tail : FieldList)
deriving DecidableEq
end

/-- `row[f]` for a record: property lookup on an object, `undefined` (here
`Val.null`) on a missing property or a non-object receiver. -/
def fieldLookup : FieldList → String → Val
  | .nil, _ => .null
  | .cons g w rest, f => if g = f then w else fieldLookup rest f

def getFieldV (row : Val) (f : String) : Val :=
  match row with
  | .obj fs => fieldLookup fs f
  | _ => .null

/-- JS property write `obj[f] = v`: replace an existing property in place,
otherwise append it. -/
def fieldUpsert : FieldList → String → Val → FieldList
  | .nil, f, v => .cons f v .nil
  | .cons g w rest, f, v =>
      if g = f then .cons f v rest else .cons g w (fieldUpsert rest f v)

/-- `row[f] = v`.  On a non-object receiver a non-strict JS write is a silent
no-op (the `null` receiver is always guarded in the source). -/
def setFieldV (row : Val) (f : String) (v : Val) : Val :=
  match row with
  | .obj fs => .obj (fieldUpsert fs f v)
  | other => other

/-- Whether the record has the property at all (`undefined`-valued properties
do not occur in the modelled flows). -/
def hasFieldV (row : Val) (f : String) : Bool :=
  match row with
  | .obj fs => hasField fs f
  | _ => false
where hasField : FieldList → String → Bool
  | .nil, _ => false
  | .cons g _ rest, f => g = f || hasField rest f

mutual
/-- Values taken by the `attributes` variable in `_seperateBaseJoinAttributes`
and stored in its lists and map: a plain string attribute, a nested
`{name, attributes}` request object, a bare attribute array (the source stores
`attr.attributes` itself into `baseAttributes`), plus the `undefined` and
`null` values the source can store (`Attr.undefv` from a nested attribute
without an `attributes` property, `Attr.nullv` from a missing foreign-key
descriptor). -/
inductive Attr where
  | flat (name : String)
  | nested (name : String) (sub : AttrListOpt)
  | sub (l : AttrList)
  | undefv
  | nullv
deriving DecidableEq

/-- A JS array of attribute values. -/
inductive AttrList where
  | nil
  | cons (head : Attr) (tail : AttrList)
deriving DecidableEq

/-- An optional nested-attribute array (`attr.attributes` may be absent). -/
inductive AttrListOpt where
  | none
  | some (l : AttrList)
deriving DecidableEq
end

/-- The foreign-key descriptor stored in `this._fks[i]` by `_getJoinSpec`:
a scalar field name (`foreignKey`), an array of field names (`foreignKeys`),
or `null` when the mapping declares neither. -/
inductive FKVal where
  | null
  | fk (field : String)
  | fks (fields : List String)
deriving DecidableEq

/-- An item of a fetch-by-keys result: `{metadata, data}`. -/
structure Item where
  metadata : Val
  data : Val
deriving DecidableEq

/-- A joined data provider, as consumed by `_joiningData`: the
`getCapability('fetchByKeys')` answer (the `implementation` string, or `none`
for a `null` capability — used only for the logged warning) and the
`fetchByKeys` operation, taking the key array and the optional `attributes`
value and resolving to the result's key→item map (`none` models an
`undefined` result / result set). -/
structure Provider where
  fetchByKeysImplementation : Option String
  fetchByKeys : List Val → Option Attr → Option (List (Val × Item))

/-- `options.joins[aliasName].foreignKeyMapping`. -/
structure ForeignKeyMapping where
  foreignKey : Option String
  foreignKeys : Option (List String)
  transform : Option (FieldList → Val)

/-- One entry of the `options.joins` map. -/
structure JoinInfo where
  foreignKeyMapping : ForeignKeyMapping
  joinedDataProvider : Option Provider

/-- The per-aliasName join configuration derived by `_getJoinSpec` and stored in
the parallel instance arrays `_joinAlias` / `_fks` / `_transform` /
`_joinDPs`; the four arrays share their index, so they are modelled as one
list of entries. -/
structure JoinEntry where
  aliasName : String
  fk : FKVal
  transform : Option (FieldList → Val)
  dp : Option Provider

/-- `_getJoinSpec`: for each aliasName of the `joins` map, record the foreign-key
descriptor (`foreignKey` wins over `foreignKeys`, else `null`), the optional
transform, and the joined provider (`null` when the join info or provider is
missing). -/
def getJoinSpec (joins : List (String × Option JoinInfo)) : List JoinEntry :=
  joins.map fun p =>
    match p.2 with
    | some ji =>
        { aliasName := p.1
          fk :=
            match ji.foreignKeyMapping.foreignKey with
            | some f => .fk f
            | none =>
                match ji.foreignKeyMapping.foreignKeys with
                | some fs => .fks fs
                | none => .null
          transform := ji.foreignKeyMapping.transform
          dp := ji.joinedDataProvider }
    | none => { aliasName := p.1, fk := .null, transform := none, dp := none }

/-! ### `_seperateBaseJoinAttributes` -/

/-- The `aliasName` variable of the classification loop: the string itself for a
string attribute, the `name` property for an object attribute, `none` when
the element has no name (`aliasName` is then `undefined` and never equals a join
aliasName). -/
def attrAlias : Attr → Option String
  | .flat s => some s
  | .nested n _ => some n
  | _ => none

/-- The `attributes` variable of the classification loop: the string itself
for a string attribute, `attr.attributes` (possibly `undefined`) for an
object attribute. -/
def attrVal : Attr → Attr
  | .flat s => .flat s
  | .nested _ (.some l) => .sub l
  | .nested _ .none => .undefv
  | _ => .undefv

/-- `bJoinAlias`: the element's aliasName string-equals one of the declared join
aliases. -/
def isJoinAttr (joinAlias : List String) (a : Attr) : Bool :=
  match attrAlias a with
  | some al => decide (al ∈ joinAlias)
  | none => false

/-- JS loose `x != undefined` (false for both `undefined` and `null`). -/
def isDefinedAttr : Attr → Bool
  | .undefv => false
  | .nullv => false
  | _ => true

/-- `Map.prototype.get` keyed by the aliasName string (`undefined` when absent). -/
def amapFind (m : List (String × Attr)) (k : String) : Option Attr :=
  (m.find? fun p => decide (p.1 = k)).map (·.2)

def amapHas (m : List (String × Attr)) (k : String) : Bool :=
  (amapFind m k).isSome

def amapGet (m : List (String × Attr)) (k : String) : Attr :=
  (amapFind m k).getD .undefv

/-- `Map.prototype.set`: overwrite the existing entry in place, otherwise
append in insertion order. -/
def amapSet : List (String × Attr) → String → Attr → List (String × Attr)
  | [], k, v => [(k, v)]
  | p :: rest, k, v =>
      if p.1 = k then (k, v) :: rest else p :: amapSet rest k v

/-- `baseAttributes[iBase] = v` — a JS array index write: in-bounds indices
are overwritten, the index one past the end appends, and any gap would be
filled with `undefined` holes (gaps never arise in the modelled loops). -/
def setIdx (l : List Attr) (i : Nat) (v : Attr) : List Attr :=
  if i < l.length then l.set i v
  else l ++ List.replicate (i - l.length) Attr.undefv ++ [v]

/-- State of `_seperateBaseJoinAttributes`: the join-attribute map being
accumulated, the `baseAttributes` array, and the `iBase` write index. -/
structure ClassifyState where
  joinMap : List (String × Attr)
  base : List Attr
  iBase : Nat
deriving DecidableEq

/-- One iteration of the classification loop of `_seperateBaseJoinAttributes`
(source lines 452–489): a join attribute accumulates into the map — on a
duplicate aliasName the source computes `joinAttrs.concat(attributes)` but
discards the result, re-storing the old value (or a fresh empty array when
the old value was `undefined`); any other attribute pushes its `attributes`
value onto `baseAttributes`. -/
def classifyStep (joinAlias : List String) (st : ClassifyState) (a : Attr) :
    ClassifyState :=
  let attributes := attrVal a
  if isJoinAttr joinAlias a then
    match attrAlias a with
    | some al =>
        if amapHas st.joinMap al then
          if isDefinedAttr attributes then
            let joinAttrs := amapGet st.joinMap al
            let joinAttrs :=
              if isDefinedAttr joinAttrs then joinAttrs else .sub .nil
            -- `joinAttrs.concat(attributes)` : the concatenation is discarded
            { st with joinMap := amapSet st.joinMap al joinAttrs }
          else st
        else { st with joinMap := amapSet st.joinMap al attributes }
    | none => st
  else
    { st with base := setIdx st.base st.iBase attributes
              iBase := st.iBase + 1 }

/-- The classification loop over the requested attributes. -/
def classifyAttributes (joinAlias : List String) (origAttr : List Attr) :
    ClassifyState :=
  origAttr.foldl (classifyStep joinAlias) ⟨[], [], 0⟩

/-- `baseAttributes.includes(fk)` — `Array.prototype.includes` uses
SameValueZero: a string foreign key matches an equal string element, an array
foreign key is compared by reference and never matches, `null` matches a
stored `null`. -/
def includesFK (l : List Attr) (fkv : FKVal) : Bool :=
  match fkv with
  | .fk f => l.any fun a =>
      match a with
      | .flat g => decide (g = f)
      | _ => false
  | .fks _ => false
  | .null => l.any fun a =>
      match a with
      | .nullv => true
      | _ => false

/-- One iteration of the foreign-key append loop (source lines 490–500): a
foreign key not `includes`-found is appended — an array descriptor through
`concat` (which does not advance `iBase`), anything else through
`baseAttributes[iBase++]`. -/
def fkStep (st : List Attr × Nat) (fkv : FKVal) : List Attr × Nat :=
  if includesFK st.1 fkv then st
  else
    match fkv with
    | .fks fs => (st.1 ++ fs.map Attr.flat, st.2)
    | .fk f => (setIdx st.1 st.2 (.flat f), st.2 + 1)
    | .null => (setIdx st.1 st.2 .nullv, st.2 + 1)

/-- The foreign-key append loop over all declared foreign keys. -/
def appendFKs (fks : List FKVal) (base : List Attr) (iBase : Nat) :
    List Attr :=
  (fks.foldl fkStep (base, iBase)).1

/-- `_seperateBaseJoinAttributes`: classify the requested attributes, then
append the declared foreign keys; returns the computed `baseAttributes`
array and the freshly rebuilt `_mapJoinAttributes`. -/
def seperateBaseJoinAttributes (spec : List JoinEntry) (origAttr : List Attr) :
    List Attr × List (String × Attr) :=
  let st := classifyAttributes (spec.map (·.aliasName)) origAttr
  (appendFKs (spec.map (·.fk)) st.base st.iBase, st.joinMap)

/-! ### `_getFKValues` -/

/-- The array `vals[j]` built for a composite descriptor:
`vals[j][k] = baseData[j][fks[i][k]]` in descriptor order. -/
def fkArray (row : Val) : List String → ValList
  | [] => .nil
  | f :: fs => .cons (getFieldV row f) (fkArray row fs)

/-- The `transformParam` object handed to a registered transform: one
property per declared foreign-key field, holding the row's value. -/
def transformParamOf (fkv : FKVal) (row : Val) : FieldList :=
  match fkv with
  | .fk f => fieldUpsert .nil f (getFieldV row f)
  | .fks fs => fs.foldl (fun acc f => fieldUpsert acc f (getFieldV row f)) .nil
  | .null => .nil

/-- `_getFKValues` for one row and one join: a `null` row or `null`
descriptor yields `null`; a registered transform is applied to
`transformParam`; otherwise an array descriptor yields the ordered array of
field values and a scalar descriptor the field value itself. -/
def getFKValue (transform : Option (FieldList → Val)) (fkv : FKVal)
    (row : Val) : Val :=
  match row, fkv with
  | .null, _ => .null
  | _, .null => .null
  | row, fkv =>
      match transform with
      | some t => t (transformParamOf fkv row)
      | none =>
          match fkv with
          | .fk f => getFieldV row f
          | .fks fs => .arr (fkArray row fs)
          | .null => .null

/-- `_getFKValues`: per join entry, the array of per-row lookup keys. -/
def getFKValues (baseData : List Val) (spec : List JoinEntry) :
    List (List Val) :=
  spec.map fun e => baseData.map (getFKValue e.transform e.fk)

/-! ### `_fetchByKeyResultsToArray` and `_assignAliasData` -/

/-- `result.results.get(key)` — the `ojMap` lookup matches keys by deep
equality (`oj.KeyUtils.equals`), here structural equality on `Val`, so
composite array-shaped keys compare element-wise. -/
def ojmapGet (m : List (Val × Item)) (k : Val) : Option Item :=
  (m.find? fun p => decide (p.1 = k)).map (·.2)

def lookupMetadata (m : List (Val × Item)) (k : Val) : Val :=
  match ojmapGet m k with
  | some it => it.metadata
  | none => .null

def lookupData (m : List (Val × Item)) (k : Val) : Val :=
  match ojmapGet m k with
  | some it => it.data
  | none => .null

/-- `_fetchByKeyResultsToArray`: when the result and its result set exist and
the set is non-empty, overwrite `metaData[i]` / `data[i]` for each key with
the found item's fields or `null`; otherwise leave both arrays untouched
(this is what lets a previous join's data go stale, see the C3 analysis). -/
def fetchByKeyResultsToArray (result : Option (List (Val × Item)))
    (keyValues : List Val) (metaData data : List Val) :
    List Val × List Val :=
  match result with
  | some m =>
      if m.length ≠ 0 then
        (keyValues.map (lookupMetadata m) ++ metaData.drop keyValues.length,
         keyValues.map (lookupData m) ++ data.drop keyValues.length)
      else (metaData, data)
  | none => (metaData, data)

/-- `_assignAliasData`: assign `baseData[i][aliasName] = aliasData[i]` on every
non-`null` row (an out-of-range index reads as `undefined`). -/
def assignAliasData : List Val → String → List Val → List Val
  | [], _, _ => []
  | row :: rest, aliasName, aliasData =>
      (match row with
       | .null => Val.null
       | row => setFieldV row aliasName (aliasData.headD .null))
        :: assignAliasData rest aliasName (aliasData.drop 1)

/-! ### `_joiningData` -/

/-- A `fetchByKeys` call issued against a joined provider: the aliasName it was
issued for, the key array, and the `attributes` value when one was passed. -/
structure FetchCall where
  aliasName : String
  keys : List Val
  attributes : Option Attr
deriving DecidableEq

/-- The failure `_joiningData` can produce: the `TypeError` thrown by
`joinDP.getCapability('fetchByKeys')` when the joined provider for an aliasName
is `null` — the source dereferences the provider for the capability check
(line 512) before its own `joinDP == null` guard (line 518). -/
inductive JoinErr where
  | nullJoinedProvider (aliasName : String)
deriving DecidableEq

/-- The fan-out loop of `_joiningData` (source lines 510–536): per join
entry, crash on a `null` provider (capability dereference), otherwise issue
`fetchByKeys` with the aliasName's keys — with no `attributes` when
`_mapJoinAttributes` is `null`, with the map's value when the aliasName is in the
map, and no fetch at all (`promises[i] = null`) otherwise.  Returns each
entry paired with its keys and its settled promise, plus the log of issued
calls. -/
def joinFanOut (mapJA : Option (List (String × Attr))) :
    List (JoinEntry × List Val) →
      Except JoinErr
        (List (JoinEntry × List Val × Option (Option (List (Val × Item)))) ×
          List FetchCall)
  | [] => .ok ([], [])
  | (e, fkv) :: rest =>
      match e.dp with
      | none => .error (.nullJoinedProvider e.aliasName)
      | some dp =>
          let step :
              Option (Option (List (Val × Item))) × List FetchCall :=
            match mapJA with
            | none => (some (dp.fetchByKeys fkv none), [⟨e.aliasName, fkv, none⟩])
            | some m =>
                if amapHas m e.aliasName then
                  let attr := amapGet m e.aliasName
                  (some (dp.fetchByKeys fkv (some attr)),
                    [⟨e.aliasName, fkv, some attr⟩])
                else (none, [])
          match joinFanOut mapJA rest with
          | .error err => .error err
          | .ok (triples, calls) =>
              .ok ((e, fkv, step.1) :: triples, step.2 ++ calls)

/-- The fan-in loop of `_joiningData` (source lines 537–547): for each entry
whose aliasName was fetched (map `null` or aliasName present), run
`_fetchByKeyResultsToArray` into the `resultMetadata` / `resultData` arrays —
which are shared across iterations — and assign the aliasName data onto the base
rows. -/
def joinFanIn (mapJA : Option (List (String × Attr))) :
    List (JoinEntry × List Val × Option (Option (List (Val × Item)))) →
      List Val → List Val → List Val → List Val
  | [], _, _, baseData => baseData
  | (e, fkv, res) :: rest, metaData, data, baseData =>
      let fetched :=
        match mapJA with
        | none => true
        | some m => amapHas m e.aliasName
      if fetched then
        let pair := fetchByKeyResultsToArray (res.getD none) fkv metaData data
        joinFanIn mapJA rest pair.1 pair.2
          (assignAliasData baseData e.aliasName pair.2)
      else joinFanIn mapJA rest metaData data baseData

/-- The options object: `joins` may be absent (`_joiningData` then
short-circuits). -/
structure JoinOptions where
  joins : Option (List (String × Option JoinInfo))

/-- `_joiningData`: short-circuit on an empty page or absent `joins`,
otherwise resolve the foreign-key values, fan out one `fetchByKeys` per
fetched aliasName, and fan the results back into the base rows.  Returns the
joined rows together with the calls issued, or the thrown error. -/
def joiningData (options : JoinOptions)
    (mapJA : Option (List (String × Attr))) (baseData : List Val) :
    Except JoinErr (List Val × List FetchCall) :=
  match options.joins with
  | none => .ok (baseData, [])
  | some joins =>
      if baseData.length = 0 then .ok (baseData, [])
      else
        let spec := getJoinSpec joins
        let fkValues := getFKValues baseData spec
        match joinFanOut mapJA (spec.zip fkValues) with
        | .error err => .error err
        | .ok (triples, calls) =>
            .ok (joinFanIn mapJA triples [] [] baseData, calls)

/-! ### The fetch facade: parameter shaping -/

/-- A fetch-parameter object, covering the fields read by `fetchFirst`,
`fetchByKeys` and `fetchByOffset` (JS parameter objects are duck-typed, so
one shape serves all three; absent properties are `none`). -/
structure MutParams where
  attributes : Option (List Attr)
  keys : Option (List Val)
  scope : Option String
  offset : Option Int
  size : Option Int
  clientId : Option String
  filterCriterion : Option Val
  sortCriteria : Option Val

/-- `fetchFirst` parameter handling (source lines 300–307): `baseParams` is
the very `params` object, and when attributes are present
`baseParams.attributes` is overwritten with the computed base attributes —
mutating the caller's object.  Returns (params forwarded to the base
provider, caller's params object after the call, `_mapJoinAttributes`). -/
def fetchFirstShape (spec : List JoinEntry) (params : Option MutParams) :
    Option MutParams × Option MutParams × Option (List (String × Attr)) :=
  match params with
  | some p =>
      match p.attributes with
      | some l =>
          let sep := seperateBaseJoinAttributes spec l
          let mutated := { p with attributes := some sep.1 }
          (some mutated, some mutated, some sep.2)
      | none => (some p, some p, none)
  | none => (none, none, none)

/-- `fetchByKeys` parameter handling (source lines 311–323): when attributes
are present, a fresh `{keys, attributes, scope}` object is built and the
caller's params are left untouched.  Returns (params forwarded to the base
provider, caller's params object after the call, `_mapJoinAttributes`). -/
def fetchByKeysShape (spec : List JoinEntry) (p : MutParams) :
    MutParams × MutParams × Option (List (String × Attr)) :=
  match p.attributes with
  | some l =>
      let sep := seperateBaseJoinAttributes spec l
      ({ attributes := some sep.1, keys := p.keys, scope := p.scope,
         offset := none, size := none, clientId := none,
         filterCriterion := none, sortCriteria := none },
       p, some sep.2)
  | none => (p, p, none)

/-- `fetchByOffset` parameter handling (source lines 346–361): when
attributes are present, a fresh
`{attributes, clientId, filterCriterion, offset, size, sortCriteria}` object
is built and the caller's params are left untouched. -/
def fetchByOffsetShape (spec : List JoinEntry) (p : MutParams) :
    MutParams × MutParams × Option (List (String × Attr)) :=
  match p.attributes with
  | some l =>
      let sep := seperateBaseJoinAttributes spec l
      ({ attributes := some sep.1, keys := none, scope := none,
         offset := p.offset, size := p.size, clientId := p.clientId,
         filterCriterion := p.filterCriterion,
         sortCriteria := p.sortCriteria },
       p, some sep.2)
  | none => (p, p, none)

/-! ### `fetchByKeys` result assembly -/

/-- The base data provider as consumed by the facade's `fetchByKeys`: its
result's key→item map, `none` modelling an `undefined` result / result
set. -/
structure BaseProvider where
  fetchByKeys : MutParams → Option (List (Val × Item))

/-- `ojMap.set`: overwrite a deep-equal key's entry, otherwise append. -/
def ojmapSet : List (Val × Item) → Val → Item → List (Val × Item)
  | [], k, it => [(k, it)]
  | p :: rest, k, it =>
      if p.1 = k then (k, it) :: rest else p :: ojmapSet rest k it

/-- The result loop of `fetchByKeys` (source lines 336–340):
`results.set(key, new Item(metaData[i], joinData[i]))` over the requested
keys in order. -/
def buildKeyResults :
    List Val → List Val → List Val → List (Val × Item) → List (Val × Item)
  | [], _, _, acc => acc
  | k :: ks, metaData, joinData, acc =>
      buildKeyResults ks (metaData.drop 1) (joinData.drop 1)
        (ojmapSet acc k ⟨metaData.headD .null, joinData.headD .null⟩)

/-- `JoiningDataProvider.fetchByKeys` (source lines 311–345): shape the base
params, fetch from the base provider (an `undefined` result set makes the
method resolve to `undefined`, modelled `none`), turn the base result into
row arrays over the requested keys, join, and assemble the key→item output
map over every requested key.  The constructor requires a `joins` map
(`_getJoinSpec` would throw otherwise), so the facade takes it directly;
`params.keys` is assumed present as the fetch-by-keys contract requires
(absent keys would make the source throw on `params.keys.forEach`). -/
def jdpFetchByKeys (base : BaseProvider)
    (joins : List (String × Option JoinInfo)) (params : MutParams) :
    Except JoinErr (Option (MutParams × List (Val × Item))) :=
  let spec := getJoinSpec joins
  let shaped := fetchByKeysShape spec params
  match base.fetchByKeys shaped.1 with
  | none => .ok none
  | some m =>
      let keyValues := params.keys.getD []
      let pair := fetchByKeyResultsToArray (some m) keyValues [] []
      match joiningData ⟨some joins⟩ shaped.2.2 pair.2 with
      | .error err => .error err
      | .ok res =>
          .ok (some (params, buildKeyResults keyValues pair.1 res.1 []))

/-! ### DeferredDataProvider -/

/-- A candidate value the deferred provider's promise resolved to, together
with the capability surface it exposes.

Modelled from the spec: `DataProviderFeatureChecker.isDataProvider` is
imported from `ojs/ojcomponentcore`, which is not part of this repository;
per the spec, the deferred adapter fails fast when the resolved value "does
not satisfy the expected provider capability surface", the surface being the
DataProvider contract (`fetchFirst` / `fetchByKeys` / `fetchByOffset` /
`containsKeys` / `getTotalSize`). -/
structure DPSurface (α : Type) where
  value : α
  hasFetchFirst : Bool
  hasFetchByKeys : Bool
  hasFetchByOffset : Bool
  hasContainsKeys : Bool
  hasGetTotalSize : Bool

/-- Modelled from the spec: the resolved value satisfies the expected
DataProvider capability surface. -/
def isDataProvider {α : Type} (c : DPSurface α) : Bool :=
  c.hasFetchFirst && c.hasFetchByKeys && c.hasFetchByOffset &&
    c.hasContainsKeys && c.hasGetTotalSize

/-- The message of the error thrown by `_getDataProvider`. -/
def deferredErrorMessage : String :=
  "Invalid data type. DeferredDataProvider takes a Promise<DataProvider>"

/-- `DeferredDataProvider._getDataProvider` (source lines 227–238): resolve
the wrapped promise, pass a valid data provider through, and throw the
descriptive error otherwise. -/
def deferredGetDataProvider {α : Type} (c : DPSurface α) :
    Except String (DPSurface α) :=
  if isDataProvider c then .ok c else .error deferredErrorMessage

/-- `DeferredDataProvider.fetchFirst`: the returned iterator's first `next`
resolves `_getDataProvider()` and only then invokes the underlying
`fetchFirst`-based iteration, abstracted as `op`. -/
def deferredFetchFirstNext {α β : Type} (c : DPSurface α) (op : α → β) :
    Except String β :=
  (deferredGetDataProvider c).map fun dp => op dp.value

/-- `DeferredDataProvider.fetchByKeys`: `_getDataProvider` then the
underlying `fetchByKeys`, abstracted as `op`. -/
def deferredFetchByKeys {α β : Type} (c : DPSurface α) (op : α → β) :
    Except String β :=
  (deferredGetDataProvider c).map fun dp => op dp.value

/-- `DeferredDataProvider.fetchByOffset`. -/
def deferredFetchByOffset {α β : Type} (c : DPSurface α) (op : α → β) :
    Except String β :=
  (deferredGetDataProvider c).map fun dp => op dp.value

/-- `DeferredDataProvider.containsKeys`. -/
def deferredContainsKeys {α β : Type} (c : DPSurface α) (op : α → β) :
    Except String β :=
  (deferredGetDataProvider c).map fun dp => op dp.value

/-- `DeferredDataProvider.getTotalSize`. -/
def deferredGetTotalSize {α β : Type} (c : DPSurface α) (op : α → β) :
    Except String β :=
  (deferredGetDataProvider c).map fun dp => op dp.value

/-! ### Concrete configurations used by the evaluations below -/

/-- A joined provider resolving key `1` to one item. -/
def dpA : Provider :=
  ⟨some "batchLookup", fun _ _ =>
    some [(Val.int 1, ⟨.str "mA", .obj (.cons "n" (.str "A1") .nil)⟩)]⟩

/-- A joined provider resolving every request to an empty result set. -/
def dpEmpty : Provider := ⟨some "batchLookup", fun _ _ => some []⟩

/-- A base row carrying the two foreign keys `fa = 1` and `fb = 2`. -/
def rowAB : Val := .obj (.cons "fa" (.int 1) (.cons "fb" (.int 2) .nil))

/-- Two joins: alias `a` (provider `dpA`, non-empty result) then alias `b`
(provider `dpEmpty`, empty result set). -/
def joinsAB : List (String × Option JoinInfo) :=
  [("a", some ⟨⟨some "fa", none, none⟩, some dpA⟩),
   ("b", some ⟨⟨some "fb", none, none⟩, some dpEmpty⟩)]

/-- What `_joiningData` actually produces for `rowAB` under `joinsAB`: the
`b` field holds the `a` join's item data. -/
def rowABJoined : Val :=
  .obj (.cons "fa" (.int 1) (.cons "fb" (.int 2)
    (.cons "a" (.obj (.cons "n" (.str "A1") .nil))
    (.cons "b" (.obj (.cons "n" (.str "A1") .nil)) .nil))))

/-- A join configuration whose joined provider is `null`. -/
def joinsNullDP : List (String × Option JoinInfo) :=
  [("dept", some ⟨⟨some "deptId", none, none⟩, none⟩)]

/-- A base row for the `joinsNullDP` configuration. -/
def rowIdDept : Val := .obj (.cons "id" (.int 1) (.cons "deptId" (.int 10) .nil))

/-- A base provider resolving only key `10` (of the requested `10, 20`). -/
def baseOnly10 : BaseProvider :=
  ⟨fun _ => some [(Val.int 10, ⟨.str "m10", .obj (.cons "name" (.str "X") .nil)⟩)]⟩

/-- A `fetchByKeys` request for keys `10` and `20`, no attributes. -/
def paramsKeys1020 : MutParams :=
  ⟨none, some [.int 10, .int 20], none, none, none, none, none, none⟩

/-- The output map `JoiningDataProvider.fetchByKeys` actually builds for
`baseOnly10` / `paramsKeys1020`: the unresolved key `20` gets a placeholder
item. -/
def map1020 : List (Val × Item) :=
  [(.int 10, ⟨.str "m10", .obj (.cons "name" (.str "X") .nil)⟩),
   (.int 20, ⟨.null, .null⟩)]

/-- One alias with a non-alias nested attribute requested. -/
def specDept : List JoinEntry := [⟨"dept", .fk "deptId", none, none⟩]

/-- The request `[{name: 'addr', attributes: ['city']}]`. -/
def attrsAddr : List Attr := [.nested "addr" (.some (.cons (.flat "city") .nil))]

/-- The request `[{name: 'dept'}, {name: 'dept', attributes: ['x']}]`:
the alias named twice, first without and then with nested attributes. -/
def attrsDeptTwice : List Attr :=
  [.nested "dept" .none, .nested "dept" (.some (.cons (.flat "x") .nil))]

/-- A composite join followed by a scalar join. -/
def specCompThenScalar : List JoinEntry :=
  [⟨"j1", .fks ["a", "b"], none, none⟩, ⟨"j2", .fk "c", none, none⟩]

/-- A composite-keyed join over `dpEmpty`. -/
def joinsComposite : List (String × Option JoinInfo) :=
  [("j", some ⟨⟨none, some ["a", "b"], none⟩, some dpEmpty⟩)]

/-- A resolved value failing the capability surface check. -/
def surfaceBad : DPSurface Nat := ⟨0, true, true, true, true, false⟩

/-- A parameter object carrying attributes and paging fields. -/
def paramsFull : MutParams :=
  ⟨some [.flat "x"], some [.int 7], some "s", some 0, some 5, some "c",
    some (.str "f"), some (.str "srt")⟩

/-- Embeds a Lean list of values as a JS array value's element list (used to
state that a composite lookup key is exactly the ordered sequence of field
values). -/
def valListOfList : List Val → ValList
  | [] => .nil
  | v :: vs => .cons v (valListOfList vs)

/-- A base row with the two composite-key fields `a = 1`, `b = 2`. -/
def rowCompAB : Val := .obj (.cons "a" (.int 1) (.cons "b" (.int 2) .nil))

/-- The request `[{name: 'dept', attributes: ['x']}, {name: 'dept'}]`:
the alias named twice, first with nested attributes. -/
def attrsDeptTwiceDefined : List Attr :=
  [.nested "dept" (.some (.cons (.flat "x") .nil)), .nested "dept" .none]

/-- A single scalar join, used as a witness configuration. -/
def specScalarC : List JoinEntry := [⟨"j2", .fk "c", none, none⟩]

/-! ## Theorems -/

/-- C1: the spec says a `null` joined provider for an alias yields no fetch
and lets the join step complete with the alias unset; the code instead
dereferences the `null` provider for the capability check (before its own
`joinDP == null` guard) and the join step fails with a `TypeError`.
Evaluating the model at the failing input shows the thrown error. -/
theorem joiningData_null_provider_throws :
    joiningData ⟨some joinsNullDP⟩ none [rowIdDept]
      = .error (.nullJoinedProvider "dept") := rfl

/-- C3: with two joins where the first alias's fetch returns data and the
second alias's fetch returns an empty result set, the shared
`resultData` array is not refreshed for the second alias and every row's
second-alias field receives the first alias's joined data — a stale value
where the claim requires `null`. -/
theorem joiningData_stale_alias_data :
    joiningData ⟨some joinsAB⟩ none [rowAB]
        = .ok ([rowABJoined],
            [⟨"a", [.int 1], none⟩, ⟨"b", [.int 2], none⟩])
      ∧ getFieldV rowABJoined "b" = getFieldV rowABJoined "a"
      ∧ getFieldV rowABJoined "b" ≠ Val.null := by
  refine ⟨rfl, rfl, ?_⟩
  decide

/-- C8: on an empty base page, an absent `joins` option, or an empty `joins`
map, `_joiningData` returns the page unchanged and issues no call to any
joined provider. -/
theorem joiningData_short_circuit (options : JoinOptions)
    (mapJA : Option (List (String × Attr))) (baseData : List Val)
    (h : baseData = [] ∨ options.joins = none ∨ options.joins = some []) :
    joiningData options mapJA baseData = .ok (baseData, []) := by
  obtain ⟨joins?⟩ := options
  rcases h with h | h | h
  · subst h
    cases joins? <;> simp [joiningData]
  · simp only at h
    subst h
    rfl
  · simp only at h
    subst h
    by_cases hb : baseData.length = 0
    · simp [joiningData, hb]
    · simp [joiningData, hb, getJoinSpec, getFKValues, joinFanOut, joinFanIn]

/-- Witness for C8 at the empty page. -/
theorem joiningData_short_circuit_witness :
    joiningData ⟨some joinsAB⟩ none [] = .ok ([], []) :=
  joiningData_short_circuit ⟨some joinsAB⟩ none [] (Or.inl rfl)

/-- C9: when the deferred provider's promise resolves to a value that fails
the capability-surface check, every data method fails with the descriptive
error on first use, and the underlying operation is never invoked on the
invalid value (the result does not depend on `op`). -/
theorem deferred_invalid_provider_fails_fast (α β : Type) (c : DPSurface α)
    (h : isDataProvider c = false) :
    (∀ op : α → β, deferredFetchFirstNext c op = .error deferredErrorMessage)
      ∧ (∀ op : α → β, deferredFetchByKeys c op = .error deferredErrorMessage)
      ∧ (∀ op : α → β, deferredFetchByOffset c op = .error deferredErrorMessage)
      ∧ (∀ op : α → β, deferredContainsKeys c op = .error deferredErrorMessage)
      ∧ (∀ op : α → β, deferredGetTotalSize c op = .error deferredErrorMessage) := by
  refine ⟨?_, ?_, ?_, ?_, ?_⟩ <;> intro op <;>
    simp [deferredFetchFirstNext, deferredFetchByKeys, deferredFetchByOffset,
      deferredContainsKeys, deferredGetTotalSize, deferredGetDataProvider, h,
      Except.map]

/-- Witness for C9 at a concrete invalid value and concrete operations. -/
theorem deferred_invalid_provider_fails_fast_witness :
    isDataProvider surfaceBad = false
      ∧ deferredFetchByKeys surfaceBad (fun n => n + 1) = .error deferredErrorMessage
      ∧ deferredFetchFirstNext surfaceBad (fun n => n) = .error deferredErrorMessage :=
  ⟨rfl,
    (deferred_invalid_provider_fails_fast Nat Nat surfaceBad rfl).2.1 (fun n => n + 1),
    (deferred_invalid_provider_fails_fast Nat Nat surfaceBad rfl).1 (fun n => n)⟩

/-- C10: with an attributes list present, `fetchFirst` overwrites the
caller's params object in place — the object forwarded to the base provider
is the caller's own object with `attributes` replaced by the computed base
attributes — while `fetchByKeys` and `fetchByOffset` build fresh parameter
objects carrying only their documented fields and leave the caller's object
unchanged. -/
theorem fetch_params_mutation_discipline (spec : List JoinEntry)
    (p : MutParams) (l : List Attr) (h : p.attributes = some l) :
    (fetchFirstShape spec (some p)).2.1
        = some { p with attributes := some (seperateBaseJoinAttributes spec l).1 }
      ∧ (fetchFirstShape spec (some p)).1 = (fetchFirstShape spec (some p)).2.1
      ∧ (fetchByKeysShape spec p).2.1 = p
      ∧ (fetchByKeysShape spec p).1
          = { attributes := some (seperateBaseJoinAttributes spec l).1,
              keys := p.keys, scope := p.scope, offset := none, size := none,
              clientId := none, filterCriterion := none, sortCriteria := none }
      ∧ (fetchByOffsetShape spec p).2.1 = p
      ∧ (fetchByOffsetShape spec p).1
          = { attributes := some (seperateBaseJoinAttributes spec l).1,
              keys := none, scope := none, offset := p.offset, size := p.size,
              clientId := p.clientId, filterCriterion := p.filterCriterion,
              sortCriteria := p.sortCriteria } := by
  refine ⟨?_, ?_, ?_, ?_, ?_, ?_⟩ <;>
    simp [fetchFirstShape, fetchByKeysShape, fetchByOffsetShape, h]

/-- Witness for C10 at a concrete parameter object. -/
theorem fetch_params_mutation_discipline_witness :
    paramsFull.attributes = some [.flat "x"]
      ∧ ((fetchFirstShape specDept (some paramsFull)).2.1
          = some { paramsFull with
              attributes := some (seperateBaseJoinAttributes specDept [.flat "x"]).1 }
        ∧ (fetchFirstShape specDept (some paramsFull)).1
            = (fetchFirstShape specDept (some paramsFull)).2.1
        ∧ (fetchByKeysShape specDept paramsFull).2.1 = paramsFull
        ∧ (fetchByKeysShape specDept paramsFull).1
            = { attributes := some (seperateBaseJoinAttributes specDept [.flat "x"]).1,
                keys := paramsFull.keys, scope := paramsFull.scope, offset := none,
                size := none, clientId := none, filterCriterion := none,
                sortCriteria := none }
        ∧ (fetchByOffsetShape specDept paramsFull).2.1 = paramsFull
        ∧ (fetchByOffsetShape specDept paramsFull).1
            = { attributes := some (seperateBaseJoinAttributes specDept [.flat "x"]).1,
                keys := none, scope := none, offset := paramsFull.offset,
                size := paramsFull.size, clientId := paramsFull.clientId,
                filterCriterion := paramsFull.filterCriterion,
                sortCriteria := paramsFull.sortCriteria }) :=
  ⟨rfl, fetch_params_mutation_discipline specDept paramsFull [.flat "x"] rfl⟩

/-- C2 counterexample: key `20` is requested but absent from the base
provider's result, yet the output map has an entry for it — a placeholder
item with `null` metadata and `null` data — so "no entry at all" is false. -/
theorem fetchByKeys_placeholder_entry_cex :
    jdpFetchByKeys baseOnly10 [] paramsKeys1020
        = .ok (some (paramsKeys1020, map1020))
      ∧ ojmapGet (baseOnly10.fetchByKeys paramsKeys1020).iget (Val.int 20) = none
      ∧ ¬ ojmapGet map1020 (Val.int 20) = none
      ∧ ojmapGet map1020 (Val.int 20) = some ⟨.null, .null⟩ := by
  refine ⟨rfl, rfl, ?_, rfl⟩
  decide

/-- C4 counterexample: the non-alias nested attribute
`{name: 'addr', attributes: ['city']}` is forwarded as its bare nested
attribute array (the name is dropped), not as the nested object unchanged. -/
theorem attr_nested_forward_cex :
    (seperateBaseJoinAttributes specDept attrsAddr).1
        = [.sub (.cons (.flat "city") .nil), .flat "deptId"]
      ∧ Attr.nested "addr" (.some (.cons (.flat "city") .nil))
          ∉ (seperateBaseJoinAttributes specDept attrsAddr).1 := by
  refine ⟨rfl, ?_⟩
  decide

/-- C5 counterexample: when the first occurrence of the alias carries no
`attributes` value (`undefined`) and a later occurrence carries nested
sub-attributes, the map entry ends up an empty array — not the first
occurrence's value. -/
theorem duplicate_alias_first_undef_cex :
    (seperateBaseJoinAttributes specDept attrsDeptTwice).2
        = [("dept", Attr.sub .nil)]
      ∧ attrVal (Attr.nested "dept" .none) = .undefv
      ∧ Attr.sub .nil ≠ Attr.undefv := by
  refine ⟨rfl, rfl, ?_⟩
  decide

/-- C6 counterexample: with the composite join `[a, b]` followed by the
scalar join `c` and the request `['x']`, the composite `concat` does not
advance `iBase`, so the scalar append overwrites the concatenated `a`:
the computed base attributes are `['x', 'c', 'b']` and the declared
foreign-key field `a` is missing. -/
theorem fk_composite_overwrite_cex :
    (seperateBaseJoinAttributes specCompThenScalar [.flat "x"]).1
        = [.flat "x", .flat "c", .flat "b"]
      ∧ Attr.flat "a" ∉ (seperateBaseJoinAttributes specCompThenScalar [.flat "x"]).1 := by
  refine ⟨rfl, ?_⟩
  decide

/-! ### Helper lemmas -/

theorem fkArray_eq_map (row : Val) (fs : List String) :
    fkArray row fs = valListOfList (fs.map (getFieldV row)) := by
  induction fs with
  | nil => rfl
  | cons f fs ih => simp [fkArray, valListOfList, ih]

/-- C7: with no transform registered, a composite descriptor produces as
lookup key exactly the ordered array of the record's field values in
descriptor order, a scalar descriptor produces the field value itself, and
with a single composite join the keys handed to the joined provider's
`fetchByKeys` are exactly those per-row keys. -/
theorem composite_fk_exact_key (baseData : List Val) (al : String)
    (fs : List String) (P : Provider) (hb : baseData ≠ []) :
    ((joiningData ⟨some [(al, some ⟨⟨none, some fs, none⟩, some P⟩)]⟩ none
          baseData).map Prod.snd
        = .ok [⟨al, baseData.map (getFKValue none (.fks fs)), none⟩])
      ∧ (∀ row, row ≠ Val.null →
          getFKValue none (.fks fs) row = .arr (fkArray row fs))
      ∧ (∀ row, fkArray row fs = valListOfList (fs.map (getFieldV row)))
      ∧ (∀ row f, row ≠ Val.null →
          getFKValue none (.fk f) row = getFieldV row f) := by
  refine ⟨?_, ?_, ?_, ?_⟩
  · cases baseData with
    | nil => exact absurd rfl hb
    | cons r rs =>
        simp [joiningData, getJoinSpec, getFKValues, joinFanOut, Except.map]
  · intro row hrow
    cases row <;> simp_all [getFKValue]
  · intro row
    exact fkArray_eq_map row fs
  · intro row f hrow
    cases row <;> simp_all [getFKValue]

/-- Witness for C7 on a concrete row and composite descriptor. -/
theorem composite_fk_exact_key_witness :
    ([rowCompAB] ≠ ([] : List Val))
      ∧ ((joiningData ⟨some joinsComposite⟩ none [rowCompAB]).map Prod.snd
          = .ok [⟨"j", [rowCompAB].map (getFKValue none (.fks ["a", "b"])), none⟩])
      ∧ getFKValue none (.fks ["a", "b"]) rowCompAB
          = .arr (.cons (.int 1) (.cons (.int 2) .nil)) :=
  ⟨by decide,
    (composite_fk_exact_key [rowCompAB] "j" ["a", "b"] dpEmpty (by decide)).1,
    by
      have h := (composite_fk_exact_key [rowCompAB] "j" ["a", "b"] dpEmpty
        (by decide)).2.1 rowCompAB (by decide)
      simpa using h⟩

theorem setIdx_length_eq (l : List Attr) (v : Attr) :
    setIdx l l.length v = l ++ [v] := by
  simp [setIdx]

theorem classifyStep_join_base (ja : List String) (st : ClassifyState)
    (a : Attr) (h : isJoinAttr ja a = true) :
    (classifyStep ja st a).base = st.base
      ∧ (classifyStep ja st a).iBase = st.iBase := by
  unfold classifyStep
  simp only [h, if_true]
  cases attrAlias a with
  | none => exact ⟨rfl, rfl⟩
  | some al =>
      by_cases h1 : amapHas st.joinMap al <;>
        by_cases h2 : isDefinedAttr (attrVal a) <;>
          simp [h1, h2]

theorem classifyStep_nonjoin (ja : List String) (st : ClassifyState)
    (a : Attr) (h : isJoinAttr ja a = false) :
    classifyStep ja st a
      = { st with base := setIdx st.base st.iBase (attrVal a),
                  iBase := st.iBase + 1 } := by
  simp [classifyStep, h]

theorem classify_foldl_base (ja : List String) :
    ∀ (attrs : List Attr) (st : ClassifyState),
      st.iBase = st.base.length →
      (attrs.foldl (classifyStep ja) st).base
          = st.base ++ (attrs.filter fun a => !isJoinAttr ja a).map attrVal
        ∧ (attrs.foldl (classifyStep ja) st).iBase
            = (attrs.foldl (classifyStep ja) st).base.length := by
  intro attrs
  induction attrs with
  | nil => intro st h; simpa using h
  | cons a rest ih =>
      intro st h
      rw [List.foldl_cons]
      by_cases hj : isJoinAttr ja a
      · obtain ⟨hb, hi⟩ := classifyStep_join_base ja st a hj
        have hih := ih (classifyStep ja st a) (by rw [hb, hi]; exact h)
        rw [hb] at hih
        simpa [List.filter_cons, hj] using hih
      · have hstep := classifyStep_nonjoin ja st a (by simpa using hj)
        rw [hstep]
        have hlen : st.iBase = st.base.length := h
        have hset : setIdx st.base st.iBase (attrVal a) = st.base ++ [attrVal a] := by
          rw [hlen, setIdx_length_eq]
        have hih := ih { st with base := setIdx st.base st.iBase (attrVal a),
                                 iBase := st.iBase + 1 }
          (by rw [hset]; simp [hlen])
        simpa [List.filter_cons, hj, hset] using hih

/-- `k ≤ i` keeps the first `k` elements of an index write unchanged. -/
theorem take_set_of_le (l : List Attr) (i k : Nat) (v : Attr) (h : k ≤ i) :
    (l.set i v).take k = l.take k := by
  induction l generalizing i k with
  | nil => simp
  | cons x xs ih =>
      cases i with
      | zero =>
          have hk0 : k = 0 := Nat.le_zero.mp h
          subst hk0
          simp
      | succ i =>
          cases k with
          | zero => simp
          | succ k => simp [List.set, ih i k (Nat.le_of_succ_le_succ h)]

theorem take_setIdx (l : List Attr) (i k : Nat) (v : Attr)
    (hk : k ≤ i) (hl : k ≤ l.length) :
    (setIdx l i v).take k = l.take k := by
  unfold setIdx
  split
  · exact take_set_of_le l i k v hk
  · rw [List.append_assoc, List.take_append_of_le_length hl]

theorem le_length_setIdx (l : List Attr) (i : Nat) (v : Attr) :
    i + 1 ≤ (setIdx l i v).length := by
  unfold setIdx
  split
  · simpa using ‹i < l.length›
  · simp only [List.length_append, List.length_replicate, List.length_cons,
      List.length_nil]
    omega

theorem take_fkFold (fks : List FKVal) :
    ∀ (l : List Attr) (i k : Nat), k ≤ i → i ≤ l.length →
      ((fks.foldl fkStep (l, i)).1).take k = l.take k := by
  induction fks with
  | nil => intro l i k _ _; simp
  | cons fkv rest ih =>
      intro l i k hk hi
      rw [List.foldl_cons]
      unfold fkStep
      by_cases hinc : includesFK l fkv
      · simpa [hinc] using ih l i k hk hi
      · simp only [hinc, Bool.false_eq_true, if_false]
        cases fkv with
        | fks fs =>
            have := ih (l ++ fs.map Attr.flat) i k hk
              (by simp; omega)
            simpa [List.take_append_of_le_length (hk.trans hi)] using this
        | fk f =>
            have := ih (setIdx l i (.flat f)) (i + 1) k (by omega)
              (le_length_setIdx l i _)
            simpa [take_setIdx l i k _ hk (hk.trans hi)] using this
        | null =>
            have := ih (setIdx l i .nullv) (i + 1) k (by omega)
              (le_length_setIdx l i _)
            simpa [take_setIdx l i k _ hk (hk.trans hi)] using this

/-- C4 (amended): classification forwards every non-alias attribute as its
`attributes` value — a flat string as itself, a nested object as its bare
nested-attribute list (or `undefined` when absent), the name dropped — in
request order; and the foreign-key append stage only writes at or beyond the
classified length, so the final base-attribute list starts with exactly
those forwarded values. -/
theorem attr_partition_base_forwarding (spec : List JoinEntry)
    (origAttr : List Attr) :
    ((classifyAttributes (spec.map (·.aliasName)) origAttr).base
        = (origAttr.filter
            fun a => !isJoinAttr (spec.map (·.aliasName)) a).map attrVal)
      ∧ ((seperateBaseJoinAttributes spec origAttr).1.take
            (classifyAttributes (spec.map (·.aliasName)) origAttr).base.length
          = (classifyAttributes (spec.map (·.aliasName)) origAttr).base) := by
  have hbase := classify_foldl_base (spec.map (·.aliasName)) origAttr ⟨[], [], 0⟩ rfl
  have hib : (classifyAttributes (spec.map (·.aliasName)) origAttr).iBase
      = (classifyAttributes (spec.map (·.aliasName)) origAttr).base.length :=
    hbase.2
  constructor
  · simpa [classifyAttributes] using hbase.1
  · unfold seperateBaseJoinAttributes appendFKs
    have htake := take_fkFold (spec.map (·.fk))
      (classifyAttributes (spec.map (·.aliasName)) origAttr).base
      (classifyAttributes (spec.map (·.aliasName)) origAttr).iBase
      (classifyAttributes (spec.map (·.aliasName)) origAttr).base.length
      (by simp [hib]) (by simp [hib])
    simpa [List.take_length] using htake

theorem amapFind_set_self (m : List (String × Attr)) (k : String) (v : Attr) :
    amapFind (amapSet m k v) k = some v := by
  induction m with
  | nil => simp [amapSet, amapFind]
  | cons p rest ih =>
      by_cases h : p.1 = k
      · simp [amapSet, amapFind, h]
      · simp only [amapSet, h, if_false]
        simpa [amapFind, List.find?_cons, h] using ih

theorem amapFind_set_ne (m : List (String × Attr)) (k k' : String) (v : Attr)
    (h : k ≠ k') : amapFind (amapSet m k v) k' = amapFind m k' := by
  induction m with
  | nil => simp [amapSet, amapFind, h]
  | cons p rest ih =>
      by_cases hp : p.1 = k
      · subst hp
        simp [amapSet, amapFind, List.find?_cons, h]
      · by_cases hp' : p.1 = k'
        · simp [amapSet, amapFind, List.find?_cons, hp, hp', Ne.symm h]
        · simp only [amapSet, hp, if_false]
          simpa [amapFind, List.find?_cons, hp'] using ih

theorem classifyStep_joinMap_find (ja : List String) (st : ClassifyState)
    (b : Attr) (al : String) (v : Attr) (hv : isDefinedAttr v = true)
    (h : amapFind st.joinMap al = some v) :
    amapFind (classifyStep ja st b).joinMap al = some v := by
  unfold classifyStep
  by_cases hj : isJoinAttr ja b
  · simp only [hj, if_true]
    cases hb : attrAlias b with
    | none => simpa using h
    | some al' =>
        by_cases hala : al' = al
        · subst hala
          have hhas : amapHas st.joinMap al' = true := by
            simp [amapHas, h]
          simp only [hhas, if_true]
          by_cases hdb : isDefinedAttr (attrVal b)
          · have hget : amapGet st.joinMap al' = v := by simp [amapGet, h]
            simp only [hdb, if_true, hget, hv]
            simpa using amapFind_set_self st.joinMap al' v
          · simpa [hdb] using h
        · by_cases hhas : amapHas st.joinMap al'
          · by_cases hdb : isDefinedAttr (attrVal b)
            · simpa [hhas, hdb, amapFind_set_ne st.joinMap al' al _ hala] using h
            · simpa [hhas, hdb] using h
          · simpa [hhas, amapFind_set_ne st.joinMap al' al _ hala] using h
  · simpa [hj] using h

theorem classify_joinMap_preserve (ja : List String) (al : String) (v : Attr)
    (hv : isDefinedAttr v = true) :
    ∀ (attrs : List Attr) (st : ClassifyState),
      amapFind st.joinMap al = some v →
      amapFind ((attrs.foldl (classifyStep ja) st).joinMap) al = some v := by
  intro attrs
  induction attrs with
  | nil => intro st h; simpa using h
  | cons b rest ih =>
      intro st h
      rw [List.foldl_cons]
      exact ih _ (classifyStep_joinMap_find ja st b al v hv h)

theorem classifyStep_joinMap_none (ja : List String) (st : ClassifyState)
    (b : Attr) (al : String) (hb : attrAlias b ≠ some al)
    (h : amapFind st.joinMap al = none) :
    amapFind (classifyStep ja st b).joinMap al = none := by
  unfold classifyStep
  by_cases hj : isJoinAttr ja b
  · simp only [hj, if_true]
    cases hba : attrAlias b with
    | none => simpa using h
    | some al' =>
        have hala : al' ≠ al := by
          intro hEq
          exact hb (hba.trans (by rw [hEq]))
        by_cases hhas : amapHas st.joinMap al'
        · by_cases hdb : isDefinedAttr (attrVal b)
          · simpa [hhas, hdb, amapFind_set_ne st.joinMap al' al _ hala] using h
          · simpa [hhas, hdb] using h
        · simpa [hhas, amapFind_set_ne st.joinMap al' al _ hala] using h
  · simpa [hj] using h

theorem classify_joinMap_first (ja : List String) (al : String)
    (hal : al ∈ ja) :
    ∀ (attrs : List Attr) (st : ClassifyState) (a : Attr),
      amapFind st.joinMap al = none →
      attrs.find? (fun x => decide (attrAlias x = some al)) = some a →
      isDefinedAttr (attrVal a) = true →
      amapFind ((attrs.foldl (classifyStep ja) st).joinMap) al
        = some (attrVal a) := by
  intro attrs
  induction attrs with
  | nil => intro st a _ hfind; simp at hfind
  | cons b rest ih =>
      intro st a hnone hfind hdef
      rw [List.foldl_cons]
      by_cases hb : attrAlias b = some al
      · have hba : b = a := by
          have := List.find?_cons_of_pos (p := fun x => decide (attrAlias x = some al))
            rest (by simpa using hb)
          rw [this] at hfind
          exact (Option.some.injEq _ _).mp hfind
        subst hba
        have hjb : isJoinAttr ja b = true := by
          simp [isJoinAttr, hb, hal]
        have hstep : amapFind (classifyStep ja st b).joinMap al
            = some (attrVal b) := by
          unfold classifyStep
          simp only [hjb, if_true, hb]
          have hhas : amapHas st.joinMap al = false := by
            simp [amapHas, hnone]
          simp only [hhas, Bool.false_eq_true, if_false]
          simpa using amapFind_set_self st.joinMap al (attrVal b)
        exact classify_joinMap_preserve ja al (attrVal b) hdef rest _ hstep
      · have hfind' : rest.find? (fun x => decide (attrAlias x = some al)) = some a := by
          have := List.find?_cons_of_neg (p := fun x => decide (attrAlias x = some al))
            rest (by simpa using hb)
          rwa [this] at hfind
        exact ih _ a (classifyStep_joinMap_none ja st b al hb hnone) hfind' hdef

/-- C5 (amended): when an attribute request names the same join alias more
than once, the map entry for that alias after partitioning equals the first
occurrence's attribute value whenever that value is defined — later
occurrences' nested sub-attributes are never merged in (the concatenation is
discarded); the one deviation is a first occurrence with an `undefined`
attributes value, which a later occurrence carrying sub-attributes turns
into an empty array (see the counterexample). -/
theorem duplicate_alias_keeps_first_defined (spec : List JoinEntry)
    (origAttr : List Attr) (al : String) (a : Attr)
    (hal : al ∈ spec.map (·.aliasName))
    (hfind : origAttr.find? (fun x => decide (attrAlias x = some al)) = some a)
    (hdef : isDefinedAttr (attrVal a) = true) :
    amapFind (seperateBaseJoinAttributes spec origAttr).2 al
      = some (attrVal a) := by
  unfold seperateBaseJoinAttributes
  exact classify_joinMap_first (spec.map (·.aliasName)) al hal origAttr
    ⟨[], [], 0⟩ a (by simp [amapFind]) hfind hdef

/-- Witness for C5 (amended) at a request naming the alias twice with the
first occurrence's attributes defined. -/
theorem duplicate_alias_keeps_first_defined_witness :
    ("dept" ∈ specDept.map (·.aliasName))
      ∧ (attrsDeptTwiceDefined.find? (fun x => decide (attrAlias x = some "dept"))
          = some (.nested "dept" (.some (.cons (.flat "x") .nil))))
      ∧ isDefinedAttr (attrVal (.nested "dept" (.some (.cons (.flat "x") .nil)))) = true
      ∧ amapFind (seperateBaseJoinAttributes specDept attrsDeptTwiceDefined).2 "dept"
          = some (attrVal (.nested "dept" (.some (.cons (.flat "x") .nil)))) :=
  ⟨by decide, by decide, rfl,
    duplicate_alias_keeps_first_defined specDept attrsDeptTwiceDefined "dept"
      (.nested "dept" (.some (.cons (.flat "x") .nil)))
      (by decide) (by decide) rfl⟩

theorem includesFK_scalar (l : List Attr) (f : String) :
    includesFK l (.fk f) = l.any fun a => decide (a = Attr.flat f) := by
  have h0 : includesFK l (.fk f)
      = l.any fun a =>
          match a with
          | Attr.flat g => decide (g = f)
          | _ => false := rfl
  rw [h0]
  congr 1
  funext a
  cases a <;> simp

theorem includesFK_scalar_countP (l : List Attr) (f : String) :
    includesFK l (.fk f) = true
      ↔ 0 < l.countP fun a => decide (a = Attr.flat f) := by
  rw [includesFK_scalar, List.any_eq_true, List.countP_pos_iff]

theorem fkFold_countP_scalar (f : String) :
    ∀ (fks : List FKVal) (l : List Attr),
      (∀ fkv ∈ fks, ∃ g, fkv = FKVal.fk g) →
      ((fks.foldl fkStep (l, l.length)).1).countP
            (fun a => decide (a = Attr.flat f))
        = if FKVal.fk f ∈ fks
              ∧ l.countP (fun a => decide (a = Attr.flat f)) = 0
          then 1 else l.countP fun a => decide (a = Attr.flat f) := by
  intro fks
  induction fks with
  | nil => intro l _; simp
  | cons fkv rest ih =>
      intro l hS
      obtain ⟨g, rfl⟩ := hS fkv (List.mem_cons_self _ _)
      rw [List.foldl_cons]
      have hS' : ∀ fkv ∈ rest, ∃ g, fkv = FKVal.fk g :=
        fun x hx => hS x (List.mem_cons_of_mem _ hx)
      by_cases hinc : includesFK l (.fk g)
      · have hstep : fkStep (l, l.length) (.fk g) = (l, l.length) := by
          simp [fkStep, hinc]
        rw [hstep, ih l hS']
        by_cases hgf : g = f
        · subst hgf
          have hpos : 0 < l.countP fun a => decide (a = Attr.flat g) :=
            (includesFK_scalar_countP l g).mp hinc
          have hne : ¬ l.countP (fun a => decide (a = Attr.flat g)) = 0 := by
            omega
          simp [hne]
        · have hmem : (FKVal.fk f ∈ FKVal.fk g :: rest) ↔ FKVal.fk f ∈ rest := by
            simp [Ne.symm hgf]
          simp only [hmem]
      · have hstep : fkStep (l, l.length) (.fk g)
            = (l ++ [Attr.flat g], l.length + 1) := by
          simp [fkStep, hinc, setIdx_length_eq]
        rw [hstep]
        have hfold := ih (l ++ [Attr.flat g]) hS'
        simp only [List.length_append, List.length_cons, List.length_nil] at hfold
        rw [hfold]
        have hzero : l.countP (fun a => decide (a = Attr.flat g)) = 0 := by
          by_contra hne
          exact hinc ((includesFK_scalar_countP l g).mpr (Nat.pos_of_ne_zero hne))
        by_cases hgf : g = f
        · subst hgf
          have hcl : (l ++ [Attr.flat g]).countP
              (fun a => decide (a = Attr.flat g)) = 1 := by
            simp [List.countP_append, hzero, List.countP_cons]
          simp [hcl, hzero]
        · have hcl : (l ++ [Attr.flat g]).countP
              (fun a => decide (a = Attr.flat f))
              = l.countP fun a => decide (a = Attr.flat f) := by
            simp [List.countP_append, List.countP_cons, hgf]
          rw [hcl]
          have hmem : (FKVal.fk f ∈ FKVal.fk g :: rest) ↔ FKVal.fk f ∈ rest := by
            simp [Ne.symm hgf]
          simp only [hmem]

/-- C6 (amended): when every declared foreign key is scalar, the computed
base-attribute list contains every declared foreign-key field, and a field
already present as a flat string is not appended a second time (the
occurrence count is unchanged; an absent field is appended exactly once).
Composite descriptors do not enjoy this: their fields are concatenated
without per-field dedup and the un-advanced append index lets later scalar
appends overwrite them (see the counterexample). -/
theorem scalar_fk_append_complete (spec : List JoinEntry)
    (origAttr : List Attr) (f : String)
    (hS : ∀ e ∈ spec, ∃ g, e.fk = FKVal.fk g)
    (hf : FKVal.fk f ∈ spec.map (·.fk)) :
    Attr.flat f ∈ (seperateBaseJoinAttributes spec origAttr).1
      ∧ (seperateBaseJoinAttributes spec origAttr).1.countP
            (fun a => decide (a = Attr.flat f))
          = max 1 ((classifyAttributes (spec.map (·.aliasName)) origAttr).base.countP
              fun a => decide (a = Attr.flat f)) := by
  have hbase := classify_foldl_base (spec.map (·.aliasName)) origAttr ⟨[], [], 0⟩ rfl
  have hib : (classifyAttributes (spec.map (·.aliasName)) origAttr).iBase
      = (classifyAttributes (spec.map (·.aliasName)) origAttr).base.length :=
    hbase.2
  have hS' : ∀ fkv ∈ spec.map (·.fk), ∃ g, fkv = FKVal.fk g := by
    intro fkv hfkv
    obtain ⟨e, he, rfl⟩ := List.mem_map.mp hfkv
    exact hS e he
  have h1 : (seperateBaseJoinAttributes spec origAttr).1
      = ((spec.map (·.fk)).foldl fkStep
          ((classifyAttributes (spec.map (·.aliasName)) origAttr).base,
           (classifyAttributes (spec.map (·.aliasName)) origAttr).base.length)).1 := by
    simp only [seperateBaseJoinAttributes, appendFKs]
    rw [hib]
  have hcount := fkFold_countP_scalar f (spec.map (·.fk))
    (classifyAttributes (spec.map (·.aliasName)) origAttr).base hS'
  constructor
  · have hposFinal : 0 < (seperateBaseJoinAttributes spec origAttr).1.countP
        fun a => decide (a = Attr.flat f) := by
      rw [h1, hcount]
      by_cases hz : (classifyAttributes (spec.map (·.aliasName)) origAttr).base.countP
          (fun a => decide (a = Attr.flat f)) = 0
      · rw [if_pos ⟨hf, hz⟩]
        omega
      · rw [if_neg fun hc => hz hc.2]
        omega
    obtain ⟨a, ha, hpa⟩ := List.countP_pos_iff.mp hposFinal
    exact (of_decide_eq_true hpa) ▸ ha
  · rw [h1, hcount]
    by_cases hz : (classifyAttributes (spec.map (·.aliasName)) origAttr).base.countP
        (fun a => decide (a = Attr.flat f)) = 0
    · rw [if_pos ⟨hf, hz⟩, hz]
      simp
    · rw [if_neg fun hc => hz hc.2]
      exact (Nat.max_eq_right (Nat.pos_of_ne_zero hz)).symm

/-- Witness for C6 (amended) on an all-scalar configuration where the field
is already requested. -/
theorem scalar_fk_append_complete_witness :
    (∀ e ∈ specScalarC, ∃ g, e.fk = FKVal.fk g)
      ∧ FKVal.fk "c" ∈ specScalarC.map (·.fk)
      ∧ Attr.flat "c" ∈ (seperateBaseJoinAttributes specScalarC [.flat "c"]).1
      ∧ (seperateBaseJoinAttributes specScalarC [.flat "c"]).1.countP
            (fun a => decide (a = Attr.flat "c"))
          = max 1 ((classifyAttributes (specScalarC.map (·.aliasName))
              [.flat "c"]).base.countP fun a => decide (a = Attr.flat "c")) :=
  ⟨by
      intro e he
      refine ⟨"c", ?_⟩
      rcases List.mem_singleton.mp he with rfl
      rfl,
    by decide,
    (scalar_fk_append_complete specScalarC [.flat "c"] "c"
      (by
        intro e he
        refine ⟨"c", ?_⟩
        rcases List.mem_singleton.mp he with rfl
        rfl)
      (by decide)).1,
    (scalar_fk_append_complete specScalarC [.flat "c"] "c"
      (by
        intro e he
        refine ⟨"c", ?_⟩
        rcases List.mem_singleton.mp he with rfl
        rfl)
      (by decide)).2⟩

theorem ojmapGet_set_self (m : List (Val × Item)) (k : Val) (it : Item) :
    ojmapGet (ojmapSet m k it) k = some it := by
  induction m with
  | nil => simp [ojmapSet, ojmapGet]
  | cons p rest ih =>
      by_cases h : p.1 = k
      · simp [ojmapSet, ojmapGet, h]
      · simp only [ojmapSet, h, if_false]
        simpa [ojmapGet, List.find?_cons, h] using ih

theorem ojmapGet_set_ne (m : List (Val × Item)) (k k' : Val) (it : Item)
    (h : k ≠ k') : ojmapGet (ojmapSet m k it) k' = ojmapGet m k' := by
  induction m with
  | nil => simp [ojmapSet, ojmapGet, h]
  | cons p rest ih =>
      by_cases hp : p.1 = k
      · subst hp
        simp [ojmapSet, ojmapGet, List.find?_cons, h]
      · by_cases hp' : p.1 = k'
        · simp [ojmapSet, ojmapGet, List.find?_cons, hp, hp', Ne.symm h]
        · simp only [ojmapSet, hp, if_false]
          simpa [ojmapGet, List.find?_cons, hp'] using ih

theorem buildKeyResults_isSome :
    ∀ (ks md jd : List Val) (acc : List (Val × Item)) (k : Val),
      (k ∈ ks ∨ (ojmapGet acc k).isSome = true) →
      (ojmapGet (buildKeyResults ks md jd acc) k).isSome = true := by
  intro ks
  induction ks with
  | nil =>
      intro md jd acc k h
      rcases h with h | h
      · simp at h
      · simpa [buildKeyResults] using h
  | cons k0 ks ih =>
      intro md jd acc k h
      show (ojmapGet (buildKeyResults ks (md.drop 1) (jd.drop 1)
        (ojmapSet acc k0 ⟨md.headD .null, jd.headD .null⟩)) k).isSome = true
      apply ih
      rcases h with h | h
      · rcases List.mem_cons.mp h with rfl | hmem
        · right
          rw [ojmapGet_set_self]
          rfl
        · exact Or.inl hmem
      · right
        by_cases hk : k0 = k
        · subst hk
          rw [ojmapGet_set_self]
          rfl
        · rwa [ojmapGet_set_ne acc k0 k _ hk]

/-- C2 (amended): the key→item mapping returned by
`JoiningDataProvider.fetchByKeys` contains an entry for every requested key —
a key the base provider did not resolve maps to a placeholder item with
`null` metadata and `null` data (see the counterexample) rather than being
absent. -/
theorem fetchByKeys_entry_for_every_requested_key (base : BaseProvider)
    (joins : List (String × Option JoinInfo)) (params : MutParams)
    (ks : List Val) (r : MutParams × List (Val × Item))
    (hkeys : params.keys = some ks)
    (hres : jdpFetchByKeys base joins params = .ok (some r)) :
    ∀ k ∈ ks, (ojmapGet r.2 k).isSome = true := by
  intro k hk
  simp only [jdpFetchByKeys] at hres
  split at hres
  · simp at hres
  · split at hres
    · simp at hres
    · simp only [Except.ok.injEq, Option.some.injEq] at hres
      rw [← hres]
      apply buildKeyResults_isSome
      rw [hkeys]
      exact Or.inl (by simpa using hk)

/-- Witness for C2 (amended) at the concrete unresolved-key scenario. -/
theorem fetchByKeys_entry_for_every_requested_key_witness :
    paramsKeys1020.keys = some [Val.int 10, Val.int 20]
      ∧ (ojmapGet map1020 (Val.int 20)).isSome = true :=
  ⟨rfl,
    fetchByKeys_entry_for_every_requested_key baseOnly10 [] paramsKeys1020
      [Val.int 10, Val.int 20] (paramsKeys1020, map1020) rfl rfl
      (Val.int 20) (by decide)⟩

end OJ
